import Mathlib

/-!
Verification of `.github/scripts/process-commits.py`.

The script reads the environment variables `PR_BODY`, `GITHUB_REPOSITORY`
and `GITHUB_ENV`, parses bullet lines of the pull-request body with the
regular expression `^\*\s+(.+?)\s+\(([0-9a-f]{7,})\)$` (applied to each
line after `str.strip()`), drops messages starting with `chore` or
`Merge `, formats the survivors as Markdown bullet entries, truncates the
joined main digest at 3900 characters, and appends three key/value
entries to the file named by `GITHUB_ENV`.

Python strings are modelled as `List Char` (a Python `str` is a sequence
of Unicode code points).  Environments are modelled as partial maps
`String → Option String`; the single file append is modelled as the
`List Char` that would be appended, with `none` denoting the fatal
`KeyError` abort when `GITHUB_ENV` is missing (the `open` on line 31
happens before any write, so on that abort nothing at all is written).
-/

/-- Python whitespace (`str.isspace`), as used by `str.strip()` and by
the regex class `\s` of the `re` module on `str` patterns. -/
def pyIsSpace (c : Char) : Bool :=
  c = ' ' || c = '\t' || c = '\n' || c = '\x0b' || c = '\x0c' || c = '\r' ||
  c = '\x1c' || c = '\x1d' || c = '\x1e' || c = '\x1f' || c = '\x85' ||
  c = '\xa0' || c = '\u1680' || c = '\u2000' || c = '\u2001' || c = '\u2002' ||
  c = '\u2003' || c = '\u2004' || c = '\u2005' || c = '\u2006' || c = '\u2007' ||
  c = '\u2008' || c = '\u2009' || c = '\u200a' || c = '\u2028' || c = '\u2029' ||
  c = '\u202f' || c = '\u205f' || c = '\u3000'

/-- Line boundaries recognised by Python `str.splitlines` (with `\r\n`
treated as a single boundary, handled by `normNewlines` below). -/
def isLineSep (c : Char) : Bool :=
  c = '\n' || c = '\r' || c = '\x0b' || c = '\x0c' || c = '\x1c' ||
  c = '\x1d' || c = '\x1e' || c = '\x85' || c = '\u2028' || c = '\u2029'

/-- Replace each `\r\n` pair by a single `\n`, so that `splitLinesAux`
can treat every remaining separator character as one line boundary. -/
def normNewlines : List Char → List Char
  | [] => []
  | c :: rest =>
    if c = '\r' then
      match rest with
      | '\n' :: rest2 => '\n' :: normNewlines rest2
      | [] => ['\r']
      | c2 :: rest2 => c :: normNewlines (c2 :: rest2)
    else c :: normNewlines rest

/-- Split at separator characters, accumulating the current line in
reverse.  Mirrors Python `str.splitlines`: no trailing empty line. -/
def splitLinesAux (cur : List Char) : List Char → List (List Char)
  | [] => if cur.isEmpty then [] else [cur.reverse]
  | c :: rest =>
    if isLineSep c then cur.reverse :: splitLinesAux [] rest
    else splitLinesAux (c :: cur) rest

/-- Python `str.splitlines` (line 9 of the script: `body.splitlines()`). -/
def pySplitlines (s : List Char) : List (List Char) :=
  splitLinesAux [] (normNewlines s)

/-- Python `str.strip()` with no argument: remove leading and trailing
whitespace (line 11 of the script: `line.strip()`). -/
def pyStrip (s : List Char) : List Char :=
  (((s.dropWhile pyIsSpace).reverse).dropWhile pyIsSpace).reverse

/-- The character class `[0-9a-f]` of the regex on line 11. -/
def isLowerHex (c : Char) : Bool :=
  ('0' ≤ c && c ≤ '9') || ('a' ≤ c && c ≤ 'f')

/--
`re.match(r'^\*\s+(.+?)\s+\(([0-9a-f]{7,})\)$', line.strip())`
(line 11 of the script), returning `some (msg, sha)` for the two
capture groups on success.

The backtracking search of the Python engine is rendered
deterministically.  Because the pattern is anchored at both ends, the
trailing `\(([0-9a-f]{7,})\)$` can only match at one place: the final
character must be `)`, the group is the maximal run of lowercase hex
digits ending just before it, and the character before that run must be
`(`.  Writing `t` for the text strictly between the leading `*` and that
`(`: the leading `\s+` (greedy) forces the first character of `t` to be
whitespace, the `\s+` before `\(` forces the last character of `t` to be
whitespace, and the lazy `(.+?)` captures the shortest possible message,
which is `t` stripped of surrounding whitespace when that is nonempty.
When `t` is entirely whitespace the engine backtracks the leading `\s+`
and captures the single whitespace character `t[len t - 2]`, which
requires `3 ≤ len t`.  (Lines produced by `splitlines` contain no
newline, so the fact that `.` does not match `\n` imposes nothing.)
-/
def matchBullet (line : List Char) : Option (List Char × List Char) :=
  match pyStrip line with
  | '*' :: rest =>
    match rest.reverse with
    | ')' :: r1 =>
      if (r1.takeWhile isLowerHex).length < 7 then none
      else
        match r1.dropWhile isLowerHex with
        | '(' :: trev =>
          match trev with
          | [] => none
          | d :: _ =>
            if !pyIsSpace d then none
            else
              match trev.reverse with
              | [] => none
              | c :: t1 =>
                if !pyIsSpace c then none
                else
                  if (pyStrip (c :: t1)).isEmpty then
                    if 3 ≤ (c :: t1).length then
                      some ([(c :: t1).getD ((c :: t1).length - 2) ' '],
                        (r1.takeWhile isLowerHex).reverse)
                    else none
                  else some (pyStrip (c :: t1), (r1.takeWhile isLowerHex).reverse)
        | _ => none
    | _ => none
  | _ => none

/-- The exclusion test of lines 16-17:
`msg.startswith('chore') or msg.startswith('Merge ')`. -/
def isExcluded (msg : List Char) : Bool :=
  ("chore".toList).isPrefixOf msg || ("Merge ".toList).isPrefixOf msg

/-- The feature test of line 22: `msg.startswith('feat')`. -/
def isFeat (msg : List Char) : Bool :=
  ("feat".toList).isPrefixOf msg

/-- Line 19: `url = f'https://github.com/{repo}/commit/{sha}'`. -/
def mkUrl (repo sha : List Char) : List Char :=
  "https://github.com/".toList ++ repo ++ "/commit/".toList ++ sha

/-- Line 20: `entry = f'[`{sha}`]({url}) {msg}'`. -/
def mkEntry (repo msg sha : List Char) : List Char :=
  "[`".toList ++ sha ++ "`](".toList ++ mkUrl repo sha ++ ") ".toList ++ msg

/--
The loop of lines 9-23, building `lines` and `feat_lines`.  The Python
loop appends to the ends of both lists while iterating forward; the
equivalent structural recursion handles the head line first and conses
its entry in front of the result for the remaining lines.  `repo` is the
value of `os.environ.get('GITHUB_REPOSITORY', '')`, read inside the loop
on line 18 but constant across iterations.
-/
def summarize (repo : List Char) : List (List Char) → List (List Char) × List (List Char)
  | [] => ([], [])
  | line :: rest =>
    match matchBullet line with
    | none => summarize repo rest
    | some (msg, sha) =>
      if isExcluded msg then summarize repo rest
      else
        let e := mkEntry repo msg sha
        let (ls, fs) := summarize repo rest
        (e :: ls, if isFeat msg then e :: fs else fs)

/-- `lines` after the loop: the main digest entries, in input order. -/
def mainLines (body repo : List Char) : List (List Char) :=
  (summarize repo (pySplitlines body)).1

/-- `feat_lines` after the loop: the feature digest entries. -/
def featLines (body repo : List Char) : List (List Char) :=
  (summarize repo (pySplitlines body)).2

/-- `'\n'.join(xs)`. -/
def nlJoin (xs : List (List Char)) : List Char :=
  List.intercalate ['\n'] xs

/-- Line 25: `body_out = '\n'.join(lines) if lines else 'No changes.'`. -/
def bodyOutPre (body repo : List Char) : List Char :=
  if (mainLines body repo).isEmpty then "No changes.".toList
  else nlJoin (mainLines body repo)

/-- Lines 26-27: `if len(body_out) > 3900: body_out = body_out[:3900] + '\n...'`. -/
def bodyOut (body repo : List Char) : List Char :=
  if 3900 < (bodyOutPre body repo).length then
    (bodyOutPre body repo).take 3900 ++ "\n...".toList
  else bodyOutPre body repo

/-- Line 29: `feat_body = '\n'.join(feat_lines)`. -/
def featBody (body repo : List Char) : List Char :=
  nlJoin (featLines body repo)

/-- Line 33: `'true' if feat_lines else 'false'` (Python list truthiness). -/
def flagString (body repo : List Char) : List Char :=
  if (featLines body repo).isEmpty then "false".toList else "true".toList

/-- Lines 32-34: the full text appended to the `GITHUB_ENV` file. -/
def outputContent (body repo : List Char) : List Char :=
  "COMMIT_LINES<<ENVEOF\n".toList ++ bodyOut body repo ++ "\nENVEOF\n".toList ++
  "HAS_FEATS=".toList ++ flagString body repo ++ ['\n'] ++
  "FEAT_LINES<<ENVEOF\n".toList ++ featBody body repo ++ "\nENVEOF\n".toList

/--
The whole script as a function of the process environment.  Line 4 reads
`PR_BODY` with default `''`; line 18 reads `GITHUB_REPOSITORY` with
default `''`; line 31 reads `GITHUB_ENV` with `os.environ[...]`, which
raises `KeyError` when absent — and since the `open` precedes every
write, nothing has been appended on that abort, modelled as `none`.
On success the result is the text appended to the `GITHUB_ENV` file.
-/
def runEnv (env : String → Option String) : Option (List Char) :=
  match env "GITHUB_ENV" with
  | none => none
  | some _ =>
    some (outputContent ((env "PR_BODY").getD "").toList
      ((env "GITHUB_REPOSITORY").getD "").toList)

/-- All records parsed from the body's lines, before the chore/Merge
filter: each `(msg, sha)` capture pair, in input order. -/
def parsedRecords (lines : List (List Char)) : List (List Char × List Char) :=
  lines.filterMap matchBullet

/-- The records retained after the chore/Merge filter of lines 16-17. -/
def keptRecords (lines : List (List Char)) : List (List Char × List Char) :=
  (parsedRecords lines).filter (fun p => !isExcluded p.1)

/-- The entry a record is formatted to (line 20). -/
def entryOf (repo : List Char) (p : List Char × List Char) : List Char :=
  mkEntry repo p.1 p.2

/--
Modelled from the spec's words for the line pattern, for comparison with
`matchBullet`: "optional leading whitespace, literal `* `, a message
(lazy match, no trailing/leading whitespace), a space, an opening
parenthesis, 7+ lowercase-hex-digit identifier, closing parenthesis,
end of line".  Reading from the right end: the last character is `)`,
before it the identifier (the maximal hex run, at least 7 long), before
that `(`, before that exactly one space, before that the nonempty
message whose first and last characters are not whitespace, and the line
starts with optional whitespace followed by the two characters `* `.
-/
def specBulletMatch (line : List Char) : Bool :=
  match line.dropWhile pyIsSpace with
  | '*' :: ' ' :: rest =>
    match rest.reverse with
    | ')' :: r1 =>
      decide (7 ≤ (r1.takeWhile isLowerHex).length) &&
        (match r1.dropWhile isLowerHex with
         | '(' :: ' ' :: mrev =>
           (match mrev with
            | [] => false
            | d :: _ => !pyIsSpace d) &&
           (match mrev.reverse with
            | [] => false
            | c :: _ => !pyIsSpace c)
         | _ => false)
    | _ => false
  | _ => false

/--
The declarative shape of the lines `matchBullet` accepts: after Python
`strip`, a `*`, a nonempty whitespace run, a nonempty middle, a nonempty
whitespace run, `(`, at least 7 lowercase hex digits, `)`.
-/
def bulletShape (line : List Char) : Prop :=
  ∃ w1 m w2 h, pyStrip line = '*' :: (w1 ++ m ++ w2 ++ '(' :: (h ++ [')'])) ∧
    w1 ≠ [] ∧ (∀ c ∈ w1, pyIsSpace c = true) ∧ m ≠ [] ∧
    w2 ≠ [] ∧ (∀ c ∈ w2, pyIsSpace c = true) ∧
    7 ≤ h.length ∧ (∀ c ∈ h, isLowerHex c = true)

/-- A concrete environment with only the output sink set, used as a
witness input. -/
def envSinkOnly : String → Option String :=
  fun k => if k = "GITHUB_ENV" then some "out.env" else none

/-- The completely empty environment, used as a witness input. -/
def emptyEnv : String → Option String := fun _ => none

/-- A pull-request body consisting of one valid bullet line whose joined
digest is exactly 3901 characters long (with empty repository name):
the fixed parts of the entry contribute 48 characters and the message
3853 more. -/
def longBody : List Char :=
  "* ".toList ++ List.replicate 3853 'x' ++ " (1234567)".toList

/-- A pull-request body consisting of one valid `feat` bullet line whose
feature digest is 3902 characters long (with empty repository name). -/
def longFeatBody : List Char :=
  "* ".toList ++ ("feat".toList ++ List.replicate 3850 'x') ++ " (1234567)".toList

/-! ## Helper lemmas -/

theorem takeWhile_append_of_all {α : Type} {p : α → Bool} {xs ys : List α}
    (h : ∀ a ∈ xs, p a = true) :
    (xs ++ ys).takeWhile p = xs ++ ys.takeWhile p := by
  induction xs with
  | nil => rfl
  | cons x xs ih =>
    have hx : p x = true := h x (List.mem_cons_self x xs)
    simp [List.takeWhile_cons, hx, ih (fun a ha => h a (List.mem_cons_of_mem _ ha))]

theorem dropWhile_append_of_all {α : Type} {p : α → Bool} {xs ys : List α}
    (h : ∀ a ∈ xs, p a = true) :
    (xs ++ ys).dropWhile p = ys.dropWhile p := by
  induction xs with
  | nil => rfl
  | cons x xs ih =>
    have hx : p x = true := h x (List.mem_cons_self x xs)
    simp [List.dropWhile_cons, hx, ih (fun a ha => h a (List.mem_cons_of_mem _ ha))]

theorem summarize_eq (repo : List Char) (ls : List (List Char)) :
    summarize repo ls =
      ((keptRecords ls).map (entryOf repo),
       ((keptRecords ls).filter (fun p => isFeat p.1)).map (entryOf repo)) := by
  induction ls with
  | nil => rfl
  | cons line rest ih =>
    unfold summarize keptRecords parsedRecords
    unfold keptRecords parsedRecords at ih
    cases h : matchBullet line with
    | none => simp [h, ih]
    | some p =>
      obtain ⟨msg, sha⟩ := p
      by_cases hex : isExcluded msg
      · simp [h, hex, ih]
      · by_cases hf : isFeat msg
        · simp [h, hex, hf, ih, entryOf, List.filter_cons]
        · simp [h, hex, hf, ih, entryOf, List.filter_cons]

theorem mainLines_eq (body repo : List Char) :
    mainLines body repo = (keptRecords (pySplitlines body)).map (entryOf repo) := by
  rw [mainLines, summarize_eq]

theorem featLines_eq (body repo : List Char) :
    featLines body repo =
      ((keptRecords (pySplitlines body)).filter (fun p => isFeat p.1)).map (entryOf repo) := by
  rw [featLines, summarize_eq]

theorem nlJoin_nil : nlJoin [] = [] := rfl

/--
C2: for every input whose joined digest of retained formatted lines
exceeds 3900 characters, the output digest is the first 3900 characters
of the joined result followed by a newline and "..." (a hard character
cutoff, with no regard for line boundaries); a joined result of at most
3900 characters (of at least one retained line) is emitted unchanged.
-/
theorem c2_truncation (body repo : List Char) :
    (3900 < (nlJoin (mainLines body repo)).length →
      bodyOut body repo =
        (nlJoin (mainLines body repo)).take 3900 ++ "\n...".toList) ∧
    (mainLines body repo ≠ [] →
      (nlJoin (mainLines body repo)).length ≤ 3900 →
      bodyOut body repo = nlJoin (mainLines body repo)) := by
  constructor
  · intro h
    have hne : mainLines body repo ≠ [] := by
      intro he
      rw [he, nlJoin_nil] at h
      simp at h
    have hpre : bodyOutPre body repo = nlJoin (mainLines body repo) := by
      unfold bodyOutPre
      rw [if_neg (by simpa [List.isEmpty_iff] using hne)]
    unfold bodyOut
    rw [hpre, if_pos h]
  · intro hne hle
    have hpre : bodyOutPre body repo = nlJoin (mainLines body repo) := by
      unfold bodyOutPre
      rw [if_neg (by simpa [List.isEmpty_iff] using hne)]
    unfold bodyOut
    rw [hpre, if_neg (by omega)]

/--
C6: when the filtered entry list is empty the digest is the literal
"No changes.", the feature flag is "false", and the feature digest is
the empty string.
-/
theorem c6_empty (body repo : List Char) (h : mainLines body repo = []) :
    bodyOut body repo = "No changes.".toList ∧
    flagString body repo = "false".toList ∧
    featBody body repo = [] := by
  have hkept : keptRecords (pySplitlines body) = [] := by
    have hm := mainLines_eq body repo
    rw [h] at hm
    exact List.map_eq_nil_iff.mp hm.symm
  have hfeat : featLines body repo = [] := by
    rw [featLines_eq, hkept]
    rfl
  refine ⟨?_, ?_, ?_⟩
  · have hpre : bodyOutPre body repo = "No changes.".toList := by
      unfold bodyOutPre
      rw [if_pos (by simp [h])]
    unfold bodyOut
    rw [hpre, if_neg (by decide)]
  · unfold flagString
    rw [if_pos (by simp [hfeat])]
  · unfold featBody
    rw [hfeat, nlJoin_nil]

/-- C6 witness: a body with no bullet line at all. -/
theorem c6_empty_witness :
    mainLines ("not a bullet".toList) [] = [] ∧
    bodyOut ("not a bullet".toList) [] = "No changes.".toList ∧
    flagString ("not a bullet".toList) [] = "false".toList ∧
    featBody ("not a bullet".toList) [] = [] :=
  ⟨by decide, c6_empty ("not a bullet".toList) [] (by decide)⟩

/--
C9: when the environment variable naming the output sink (GITHUB_ENV)
is absent, the process aborts (KeyError on line 31) before anything is
appended: the modelled run produces no output at all.
-/
theorem c9_no_sink (env : String → Option String)
    (h : env "GITHUB_ENV" = none) : runEnv env = none := by
  unfold runEnv
  rw [h]

/-- C9 witness: the empty environment. -/
theorem c9_no_sink_witness :
    emptyEnv "GITHUB_ENV" = none ∧ runEnv emptyEnv = none :=
  ⟨rfl, c9_no_sink emptyEnv rfl⟩

theorem outputContent_nil_body (repo : List Char) :
    outputContent [] repo =
      ("COMMIT_LINES<<ENVEOF\nNo changes.\nENVEOF\nHAS_FEATS=false\nFEAT_LINES<<ENVEOF\n\nENVEOF\n").toList := by
  rfl

/--
C10: when PR_BODY is unset the program treats the body as the empty
string and completes normally (given an output sink), writing the digest
"No changes.", flag "false", and an empty feature digest.
-/
theorem c10_missing_body (env : String → Option String) (p : String)
    (hb : env "PR_BODY" = none) (he : env "GITHUB_ENV" = some p) :
    runEnv env =
      some (("COMMIT_LINES<<ENVEOF\nNo changes.\nENVEOF\nHAS_FEATS=false\nFEAT_LINES<<ENVEOF\n\nENVEOF\n").toList) := by
  unfold runEnv
  rw [he, hb]
  simp [outputContent_nil_body]

/-- C10 witness: environment with only the sink variable set. -/
theorem c10_missing_body_witness :
    envSinkOnly "PR_BODY" = none ∧ envSinkOnly "GITHUB_ENV" = some "out.env" ∧
    runEnv envSinkOnly =
      some (("COMMIT_LINES<<ENVEOF\nNo changes.\nENVEOF\nHAS_FEATS=false\nFEAT_LINES<<ENVEOF\n\nENVEOF\n").toList) :=
  ⟨by decide, by decide, c10_missing_body envSinkOnly "out.env" (by decide) (by decide)⟩

/--
C8: the commit link is synthesized as
`https://github.com/<repo>/commit/<sha>` from the repository-name
environment variable and the matched hash; when that variable is absent
it defaults to the empty string, yielding the malformed
`https://github.com//commit/<sha>` while the run still completes.
-/
theorem c8_link (env : String → Option String) (p : String)
    (he : env "GITHUB_ENV" = some p) (hr : env "GITHUB_REPOSITORY" = none) :
    runEnv env = some (outputContent ((env "PR_BODY").getD "").toList []) ∧
    mainLines ("* fix: bug (1234567)".toList) ("o/r".toList) =
      [("[`1234567`](https://github.com/o/r/commit/1234567) fix: bug").toList] ∧
    mainLines ("* fix: bug (1234567)".toList) [] =
      [("[`1234567`](https://github.com//commit/1234567) fix: bug").toList] := by
  refine ⟨?_, by decide, by decide⟩
  unfold runEnv
  rw [he, hr]
  rfl

/-- C8 witness: environment with only the sink variable set. -/
theorem c8_link_witness :
    envSinkOnly "GITHUB_ENV" = some "out.env" ∧
    envSinkOnly "GITHUB_REPOSITORY" = none ∧
    runEnv envSinkOnly = some (outputContent ((envSinkOnly "PR_BODY").getD "").toList []) :=
  ⟨by decide, by decide, (c8_link envSinkOnly "out.env" (by decide) (by decide)).1⟩

theorem isFeat_not_excluded {m : List Char} (hm : isFeat m = true) :
    isExcluded m = false := by
  cases m with
  | nil => simp [isFeat, List.isPrefixOf] at hm
  | cons c cs =>
    simp [isFeat, List.isPrefixOf] at hm
    obtain ⟨hc, -⟩ := hm
    subst hc
    simp [isExcluded, List.isPrefixOf]

/--
C4: the HAS_FEATS flag is the literal string "true" exactly when some
parsed record's message (before the chore/Merge filter) begins with
"feat", and the literal string "false" otherwise; the code's test on the
filtered records is equivalent because a message starting with "feat"
starts with neither "chore" nor "Merge ".
-/
theorem c4_flag (body repo : List Char) :
    (flagString body repo = "true".toList ↔
      ∃ p ∈ parsedRecords (pySplitlines body), isFeat p.1 = true) ∧
    (flagString body repo = "true".toList ∨
      flagString body repo = "false".toList) := by
  have hiff : featLines body repo ≠ [] ↔
      ∃ p ∈ parsedRecords (pySplitlines body), isFeat p.1 = true := by
    rw [featLines_eq]
    constructor
    · intro h
      have hf : (keptRecords (pySplitlines body)).filter (fun p => isFeat p.1) ≠ [] := by
        intro he
        rw [he] at h
        simp at h
      obtain ⟨q, hq⟩ := List.exists_mem_of_ne_nil _ hf
      have hq2 := List.mem_filter.mp hq
      exact ⟨q, (List.mem_filter.mp hq2.1).1, hq2.2⟩
    · intro ⟨q, hq, hfeat⟩
      have hqk : q ∈ keptRecords (pySplitlines body) := by
        unfold keptRecords
        exact List.mem_filter.mpr ⟨hq, by simp [isFeat_not_excluded hfeat]⟩
      have : q ∈ (keptRecords (pySplitlines body)).filter (fun p => isFeat p.1) :=
        List.mem_filter.mpr ⟨hqk, hfeat⟩
      simp only [ne_eq, List.map_eq_nil_iff]
      intro he
      rw [he] at this
      simp at this
  constructor
  · unfold flagString
    by_cases h : (featLines body repo).isEmpty
    · rw [if_pos h]
      simp only [List.isEmpty_iff] at h
      constructor
      · intro hfalse
        exact absurd hfalse (by decide)
      · intro hex
        exact absurd (hiff.mpr hex) (by simp [h])
    · rw [if_neg h]
      simp only [List.isEmpty_iff] at h
      simp only [ne_eq] at hiff
      exact ⟨fun _ => hiff.mp h, fun _ => rfl⟩
  · unfold flagString
    by_cases h : (featLines body repo).isEmpty
    · rw [if_pos h]; right; rfl
    · rw [if_neg h]; left; rfl

/--
C3: no record whose message starts with "chore" or "Merge " (case
sensitive, trailing space significant) contributes to either digest:
every entry of the main or feature digest comes from a message starting
with neither.
-/
theorem c3_filter (body repo e : List Char)
    (he : e ∈ mainLines body repo ∨ e ∈ featLines body repo) :
    ∃ msg sha, e = mkEntry repo msg sha ∧
      ("chore".toList).isPrefixOf msg = false ∧
      ("Merge ".toList).isPrefixOf msg = false := by
  have hkept : ∃ p ∈ keptRecords (pySplitlines body), e = entryOf repo p := by
    cases he with
    | inl h =>
      rw [mainLines_eq] at h
      obtain ⟨p, hp, hpe⟩ := List.mem_map.mp h
      exact ⟨p, hp, hpe.symm⟩
    | inr h =>
      rw [featLines_eq] at h
      obtain ⟨p, hp, hpe⟩ := List.mem_map.mp h
      exact ⟨p, (List.mem_filter.mp hp).1, hpe.symm⟩
  obtain ⟨⟨msg, sha⟩, hp, he2⟩ := hkept
  have hx : isExcluded msg = false := by
    have h2 := (List.mem_filter.mp hp).2
    simpa using h2
  simp only [isExcluded, Bool.or_eq_false_iff] at hx
  exact ⟨msg, sha, he2, hx.1, hx.2⟩

/-- C3 witness: a message starting with "Mergeable" (no space after
"Merge") is retained in the main digest. -/
theorem c3_filter_witness :
    (("[`1234567`](https://github.com/o/r/commit/1234567) Mergeable fix").toList
        ∈ mainLines ("* Mergeable fix (1234567)".toList) ("o/r".toList) ∨
      ("[`1234567`](https://github.com/o/r/commit/1234567) Mergeable fix").toList
        ∈ featLines ("* Mergeable fix (1234567)".toList) ("o/r".toList)) ∧
    ∃ msg sha,
      ("[`1234567`](https://github.com/o/r/commit/1234567) Mergeable fix").toList =
        mkEntry ("o/r".toList) msg sha ∧
      ("chore".toList).isPrefixOf msg = false ∧
      ("Merge ".toList).isPrefixOf msg = false :=
  ⟨Or.inl (by decide),
    c3_filter ("* Mergeable fix (1234567)".toList) ("o/r".toList)
      (("[`1234567`](https://github.com/o/r/commit/1234567) Mergeable fix").toList)
      (Or.inl (by decide))⟩

/--
C5: the feature digest consists of exactly the retained entries whose
message starts with "feat", in the same relative order (a sublist of the
pre-truncation main digest), and joining them is never subjected to the
3900-character truncation.
-/
theorem c5_featdigest (body repo : List Char) :
    featLines body repo =
      ((keptRecords (pySplitlines body)).filter (fun p => isFeat p.1)).map (entryOf repo) ∧
    (featLines body repo).Sublist (mainLines body repo) ∧
    (3900 < (nlJoin (featLines body repo)).length →
      featBody body repo = nlJoin (featLines body repo)) := by
  refine ⟨featLines_eq body repo, ?_, fun _ => rfl⟩
  rw [featLines_eq, mainLines_eq]
  exact (List.filter_sublist _).map (entryOf repo)

theorem all_takeWhile {α : Type} (p : α → Bool) (l : List α) :
    (l.takeWhile p).all p = true := by
  simp only [List.all_eq_true]
  intro a ha
  exact List.mem_takeWhile_imp ha

theorem matchBullet_sha {line msg sha : List Char}
    (h : matchBullet line = some (msg, sha)) :
    7 ≤ sha.length ∧ sha.all isLowerHex = true := by
  unfold matchBullet at h
  repeat' split at h
  all_goals try exact Option.noConfusion h
  all_goals
    injection h with h1
    injection h1 with hm hs
    subst hs
    refine ⟨?_, by simp only [List.all_reverse]; exact all_takeWhile _ _⟩
    simp only [List.length_reverse]
    omega

/--
C1 counterexample: with input line `* fix (12345678)` (an 8-hex-digit
identifier, which the `{7,}` pattern accepts) and repository `o/r`, the
retained digest line renders the identifier in full — its first ten
characters read `` [`12345678 `` — whereas the claimed shape
`` [`<first 7 hex characters>`](<link>) <message> `` mandates the
closing backtick after seven identifier characters, i.e. a line starting
`` [`1234567` ``.  The identifier is not truncated for display.
-/
theorem c1_counterexample :
    mainLines ("* fix (12345678)".toList) ("o/r".toList) =
      [("[`12345678`](https://github.com/o/r/commit/12345678) fix").toList] ∧
    (("[`12345678`](https://github.com/o/r/commit/12345678) fix").toList).take 10 =
      ("[`12345678").toList ∧
    ("[`12345678").toList ≠ ("[`1234567`").toList := by
  refine ⟨by decide, by decide, by decide⟩

/--
C1 (amended): every retained digest line has the exact shape
`` [`<identifier>`](<link>) <message> `` where the identifier is the
matched hash rendered in full — at least 7 lowercase hex digits, shown
as-is rather than truncated to 7 (for a 7-character hash the two
coincide).
-/
theorem c1_entry_shape (body repo e : List Char)
    (he : e ∈ mainLines body repo) :
    ∃ msg sha, e = mkEntry repo msg sha ∧ 7 ≤ sha.length ∧
      sha.all isLowerHex = true := by
  rw [mainLines_eq] at he
  obtain ⟨⟨msg, sha⟩, hp, hpe⟩ := List.mem_map.mp he
  have hparsed : (msg, sha) ∈ parsedRecords (pySplitlines body) :=
    (List.mem_filter.mp hp).1
  obtain ⟨line, hline, hm⟩ := List.mem_filterMap.mp hparsed
  obtain ⟨h7, hall⟩ := matchBullet_sha hm
  exact ⟨msg, sha, hpe.symm, h7, hall⟩

/-- C1 witness: a 7-digit hash is rendered as its 7 characters. -/
theorem c1_entry_shape_witness :
    (("[`1234567`](https://github.com/o/r/commit/1234567) fix: bug").toList
      ∈ mainLines ("* fix: bug (1234567)".toList) ("o/r".toList)) ∧
    ∃ msg sha,
      ("[`1234567`](https://github.com/o/r/commit/1234567) fix: bug").toList =
        mkEntry ("o/r".toList) msg sha ∧ 7 ≤ sha.length ∧
      sha.all isLowerHex = true :=
  ⟨by decide,
    c1_entry_shape ("* fix: bug (1234567)".toList) ("o/r".toList)
      (("[`1234567`](https://github.com/o/r/commit/1234567) fix: bug").toList)
      (by decide)⟩

theorem strip_decomp (t : List Char) :
    t = t.takeWhile pyIsSpace ++ pyStrip t ++
      (((t.dropWhile pyIsSpace).reverse).takeWhile pyIsSpace).reverse := by
  conv_lhs => rw [← List.takeWhile_append_dropWhile (p := pyIsSpace) (l := t)]
  rw [List.append_assoc]
  congr 1
  conv_lhs => rw [← List.reverse_reverse (t.dropWhile pyIsSpace),
    ← List.takeWhile_append_dropWhile (p := pyIsSpace)
      (l := (t.dropWhile pyIsSpace).reverse)]
  rw [List.reverse_append]
  rfl

theorem pyStrip_eq_nil_all_space {t : List Char} (h : pyStrip t = []) :
    ∀ x ∈ t, pyIsSpace x = true := by
  unfold pyStrip at h
  rw [List.reverse_eq_nil_iff, List.dropWhile_eq_nil_iff] at h
  intro x hx
  rw [← List.takeWhile_append_dropWhile (p := pyIsSpace) (l := t)] at hx
  rcases List.mem_append.mp hx with h1 | h2
  · exact List.mem_takeWhile_imp h1
  · exact h x (List.mem_reverse.mpr h2)

theorem rest_reconstruct {rest r1 t1 rest1 : List Char} {d c : Char}
    (heq2 : rest.reverse = ')' :: r1)
    (heq3 : List.dropWhile isLowerHex r1 = '(' :: d :: rest1)
    (heq4 : (d :: rest1).reverse = c :: t1) :
    rest = (c :: t1) ++ '(' :: ((List.takeWhile isLowerHex r1).reverse ++ [')']) := by
  have hr : rest = r1.reverse ++ [')'] := by
    have h2 := congrArg List.reverse heq2
    simpa using h2
  have hr1 : r1 = List.takeWhile isLowerHex r1 ++ ('(' :: d :: rest1) := by
    conv_lhs => rw [← List.takeWhile_append_dropWhile (p := isLowerHex) (l := r1)]
    rw [heq3]
  rw [hr]
  conv_lhs => rw [hr1]
  simp only [List.reverse_append, List.reverse_cons, List.append_assoc]
  have heq4a : rest1.reverse ++ [d] = c :: t1 := by simpa using heq4
  rw [← List.append_assoc, heq4a]
  simp

theorem matchBullet_isSome_shape {line : List Char}
    (h : (matchBullet line).isSome = true) : bulletShape line := by
  unfold matchBullet at h
  repeat' split at h
  all_goals try simp at h
  · -- the all-whitespace-middle branch: strip of the middle is empty
    rename_i xA rest heq1 xB r1 heq2 hlen xC xD d rest1 heq3 hd xE c t1 heq4 hc2 hemp hlen3
    have hws : ∀ x ∈ (c :: t1), pyIsSpace x = true :=
      pyStrip_eq_nil_all_space (List.isEmpty_iff.mp hemp)
    have hrest : rest =
        (c :: t1) ++ '(' :: ((List.takeWhile isLowerHex r1).reverse ++ [')']) :=
      rest_reconstruct heq2 heq3 heq4
    have ht1 : t1 ≠ [] := by
      intro he
      rw [he] at hlen3
      simp at hlen3
    have hdrop : t1.dropLast ≠ [] := by
      apply List.ne_nil_of_length_pos
      have h6 : t1.dropLast.length = t1.length - 1 := List.length_dropLast t1
      have h7 : 3 ≤ t1.length + 1 := by simpa using hlen3
      omega
    refine ⟨[c], t1.dropLast, [t1.getLast ht1], (List.takeWhile isLowerHex r1).reverse,
      ?eqq2, by simp, ?w1ws2, hdrop, by simp, ?w2ws2, ?hlen72, ?hexall2⟩
    case eqq2 =>
      rw [heq1, hrest]
      conv_lhs =>
        rw [show t1 = t1.dropLast ++ [t1.getLast ht1] from
          (List.dropLast_append_getLast ht1).symm]
      simp [List.append_assoc]
    case w1ws2 =>
      intro x hx
      simp only [List.mem_singleton] at hx
      rw [hx]
      exact hws c (List.mem_cons_self c t1)
    case w2ws2 =>
      intro x hx
      simp only [List.mem_singleton] at hx
      rw [hx]
      exact hws _ (List.mem_cons_of_mem _ (List.getLast_mem ht1))
    case hlen72 =>
      simp only [List.length_reverse]
      omega
    case hexall2 =>
      intro x hx
      exact List.mem_takeWhile_imp (List.mem_reverse.mp hx)
  · -- the branch with a nonempty stripped message
    rename_i x0 rest heq1 x1 r1 heq2 hlen x2 x3 d rest1 heq3 hd x4 c t1 heq4 hc hne
    have hmne : pyStrip (c :: t1) ≠ [] := by
      simpa [List.isEmpty_iff] using hne
    have hrest : rest =
        (c :: t1) ++ '(' :: ((List.takeWhile isLowerHex r1).reverse ++ [')']) :=
      rest_reconstruct heq2 heq3 heq4
    have hcw : pyIsSpace c = true := by simpa using hc
    have hdw : pyIsSpace d = true := by simpa using hd
    have hdec := strip_decomp (c :: t1)
    have htrev : (c :: t1).reverse = d :: rest1 := by
      rw [← heq4, List.reverse_reverse]
    have hd2 : (c :: t1).dropWhile pyIsSpace ≠ [] := by
      intro he
      apply hmne
      unfold pyStrip
      rw [he]
      rfl
    obtain ⟨e, es, hees⟩ : ∃ e es, ((c :: t1).dropWhile pyIsSpace).reverse = e :: es := by
      cases hrev : ((c :: t1).dropWhile pyIsSpace).reverse with
      | nil => exact absurd (by simpa using hrev) hd2
      | cons e es => exact ⟨e, es, rfl⟩
    have hed : e = d := by
      have h5 : (c :: t1).reverse =
          ((c :: t1).dropWhile pyIsSpace).reverse ++
            ((c :: t1).takeWhile pyIsSpace).reverse := by
        conv_lhs => rw [← List.takeWhile_append_dropWhile (p := pyIsSpace) (l := c :: t1)]
        rw [List.reverse_append]
      rw [htrev, hees, List.cons_append] at h5
      injection h5 with h6 h7
      exact h6.symm
    refine ⟨(c :: t1).takeWhile pyIsSpace, pyStrip (c :: t1),
      (((c :: t1).dropWhile pyIsSpace).reverse.takeWhile pyIsSpace).reverse,
      (List.takeWhile isLowerHex r1).reverse,
      ?eqq, by simp [List.takeWhile_cons, hcw], ?w1ws, hmne, ?w2ne, ?w2ws, ?hlen7, ?hexall⟩
    case eqq =>
      rw [heq1, hrest]
      conv_lhs => rw [hdec]
    case w1ws =>
      intro x hx
      exact List.mem_takeWhile_imp hx
    case w2ne =>
      rw [hees]
      simp [List.takeWhile_cons, hed, hdw]
    case w2ws =>
      intro x hx
      exact List.mem_takeWhile_imp (List.mem_reverse.mp hx)
    case hlen7 =>
      simp only [List.length_reverse]
      omega
    case hexall =>
      intro x hx
      exact List.mem_takeWhile_imp (List.mem_reverse.mp hx)

theorem shape_matchBullet_isSome {line : List Char} (hs : bulletShape line) :
    (matchBullet line).isSome = true := by
  obtain ⟨w1, m, w2, hh, heq0, hw1ne, hw1ws, hmne, hw2ne, hw2ws, hhlen, hhex⟩ := hs
  obtain ⟨c, w1t, rfl⟩ : ∃ c w1t, w1 = c :: w1t := by
    cases w1 with
    | nil => exact absurd rfl hw1ne
    | cons c w1t => exact ⟨c, w1t, rfl⟩
  obtain ⟨d, w2rt, hw2r⟩ : ∃ d w2rt, w2.reverse = d :: w2rt := by
    cases hw2 : w2.reverse with
    | nil => exact absurd (by simpa using hw2) hw2ne
    | cons d w2rt => exact ⟨d, w2rt, rfl⟩
  have hdws : pyIsSpace d = true :=
    hw2ws d (by rw [← List.mem_reverse, hw2r]; exact List.mem_cons_self d w2rt)
  have hcws : pyIsSpace c = true := hw1ws c (List.mem_cons_self c w1t)
  have hrestrev : ((c :: w1t) ++ m ++ w2 ++ '(' :: (hh ++ [')'])).reverse =
      ')' :: (hh.reverse ++ '(' :: (w2.reverse ++ (m.reverse ++ (c :: w1t).reverse))) := by
    simp [List.reverse_append, List.append_assoc]
  have htw : List.takeWhile isLowerHex
      (hh.reverse ++ '(' :: (w2.reverse ++ (m.reverse ++ (c :: w1t).reverse))) =
      hh.reverse := by
    rw [takeWhile_append_of_all (fun a ha => hhex a (List.mem_reverse.mp ha))]
    simp [List.takeWhile_cons, show isLowerHex '(' = false from by decide]
  have hdwh : List.dropWhile isLowerHex
      (hh.reverse ++ '(' :: (w2.reverse ++ (m.reverse ++ (c :: w1t).reverse))) =
      '(' :: (w2.reverse ++ (m.reverse ++ (c :: w1t).reverse)) := by
    rw [dropWhile_append_of_all (fun a ha => hhex a (List.mem_reverse.mp ha))]
    simp [List.dropWhile_cons, show isLowerHex '(' = false from by decide]
  unfold matchBullet
  split
  case h_2 hmatch =>
    exact absurd heq0 (fun hq => hmatch _ hq)
  case h_1 x0 rest heq1 =>
    rw [heq0] at heq1
    injection heq1 with hstar hrest2
    subst hrest2
    split
    case h_2 hmatch =>
      exact absurd hrestrev (fun hq => hmatch _ hq)
    case h_1 x1 r1 heq2 =>
      rw [hrestrev] at heq2
      injection heq2 with hpar hr1
      subst hr1
      split
      case isTrue habs =>
        rw [htw] at habs
        simp only [List.length_reverse] at habs
        omega
      case isFalse hlen7 =>
        have hW : w2.reverse ++ (m.reverse ++ (c :: w1t).reverse) =
            d :: (w2rt ++ (m.reverse ++ (c :: w1t).reverse)) := by
          rw [hw2r]
          rfl
        have htrev2 : (d :: (w2rt ++ (m.reverse ++ (c :: w1t).reverse))).reverse =
            c :: (w1t ++ (m ++ w2)) := by
          rw [← hW]
          simp [List.reverse_append, List.append_assoc]
        split
        case h_2 =>
          rename_i hmatch
          exact absurd hdwh (fun hq => hmatch _ hq)
        case h_1 trev heq =>
          rw [hdwh] at heq
          injection heq with hpar2 htrev
          subst htrev
          rw [hW]
          split
          case h_1 habs => exact absurd habs (by simp)
          case h_2 d2 tail2 heq5 =>
            injection heq5 with hd2 htail2
            subst hd2
            rw [if_neg (by simp [hdws])]
            rw [htrev2]
            split
            case h_1 habs => exact absurd habs (by simp)
            case h_2 c2 t2 heq6 =>
              injection heq6 with hc2 ht2
              subst hc2
              subst ht2
              rw [if_neg (by simp [hcws])]
              have h3len : 3 ≤ (c :: (w1t ++ (m ++ w2))).length := by
                have hm1 : 0 < m.length := List.length_pos.mpr hmne
                have hw21 : 0 < w2.length := List.length_pos.mpr hw2ne
                simp [List.length_append]
                omega
              rw [if_pos h3len]
              split
              all_goals rfl

/--
C7 counterexample: the line `* fix: bug (1234567) ` (trailing space) is
accepted by the code — `line.strip()` removes trailing whitespace before
the anchored regex runs — but the claimed pattern (optional LEADING
whitespace, literal `* `, message, a space, parenthesised 7+ hex
identifier, end of line) rejects it, since the closing parenthesis is
not at the end of the line.  So "contributes a record iff it matches the
claimed pattern" is false.
-/
theorem c7_counterexample :
    (matchBullet ("* fix: bug (1234567) ".toList)).isSome = true ∧
    specBulletMatch ("* fix: bug (1234567) ".toList) = false :=
  ⟨by decide, by decide⟩

/--
C7 (amended): a line of the body (a line holds no separator characters)
contributes a record iff, after stripping leading and trailing
whitespace, it reads `*`, a nonempty whitespace run, a nonempty middle,
a nonempty whitespace run, `(`, 7 or more lowercase hex digits, `)`;
any other line is silently skipped, contributing nothing to either
digest, with no error raised and no count of skipped lines kept.
-/
theorem c7_line_match (line : List Char)
    (_hsep : ∀ ch ∈ line, isLineSep ch = false) :
    ((matchBullet line).isSome = true ↔ bulletShape line) ∧
    (∀ repo rest, matchBullet line = none →
      summarize repo (line :: rest) = summarize repo rest) := by
  refine ⟨⟨fun h => matchBullet_isSome_shape h, fun h => shape_matchBullet_isSome h⟩, ?_⟩
  intro repo rest hnone
  conv_lhs => rw [summarize.eq_def]
  dsimp only
  rw [hnone]

/-- C7 witness: the line `not a bullet` is skipped silently. -/
theorem c7_line_match_witness :
    (∀ ch ∈ ("not a bullet".toList), isLineSep ch = false) ∧
    matchBullet ("not a bullet".toList) = none ∧
    summarize [] ("not a bullet".toList :: []) = summarize [] [] :=
  ⟨by decide, by decide,
    (c7_line_match ("not a bullet".toList) (by decide)).2 [] [] (by decide)⟩

theorem normNewlines_no_cr {s : List Char} (h : ∀ c ∈ s, c ≠ '\r') :
    normNewlines s = s := by
  induction s with
  | nil => rfl
  | cons c rest ih =>
    conv_lhs => rw [normNewlines.eq_def]
    dsimp only
    rw [if_neg (h c (List.mem_cons_self c rest))]
    rw [ih (fun x hx => h x (List.mem_cons_of_mem _ hx))]

theorem splitLinesAux_no_sep {s : List Char} (h : ∀ c ∈ s, isLineSep c = false) :
    ∀ cur : List Char, ¬(cur = [] ∧ s = []) →
      splitLinesAux cur s = [cur.reverse ++ s] := by
  induction s with
  | nil =>
    intro cur hne
    have hcur : cur ≠ [] := by
      intro he
      exact hne ⟨he, rfl⟩
    unfold splitLinesAux
    rw [if_neg (by simpa [List.isEmpty_iff] using hcur)]
    simp
  | cons c rest ih =>
    intro cur hne
    conv_lhs => rw [splitLinesAux.eq_def]
    dsimp only
    rw [if_neg (by simp [h c (List.mem_cons_self c rest)])]
    rw [ih (fun x hx => h x (List.mem_cons_of_mem _ hx)) (c :: cur) (by simp)]
    simp

theorem pySplitlines_single {s : List Char} (hne : s ≠ [])
    (h : ∀ c ∈ s, isLineSep c = false) : pySplitlines s = [s] := by
  unfold pySplitlines
  rw [normNewlines_no_cr (fun c hc he => by
    subst he
    have h2 := h _ hc
    simp [isLineSep] at h2)]
  rw [splitLinesAux_no_sep h [] (by simp [hne])]
  simp

theorem pyStrip_pad {msg : List Char} {c0 d0 : Char} {ms ds : List Char}
    (hm : msg = c0 :: ms) (hr : msg.reverse = d0 :: ds)
    (hc0 : pyIsSpace c0 = false) (hd0 : pyIsSpace d0 = false) :
    pyStrip (' ' :: (msg ++ [' '])) = msg := by
  unfold pyStrip
  rw [List.dropWhile_cons, if_pos (by decide)]
  rw [hm, List.cons_append, List.dropWhile_cons, if_neg (by simp [hc0])]
  have h1 : (c0 :: (ms ++ [' '])).reverse = ' ' :: (d0 :: ds) := by
    rw [show c0 :: (ms ++ [' ']) = (c0 :: ms) ++ [' '] from rfl]
    rw [List.reverse_append, ← hm, hr]
    rfl
  rw [h1, List.dropWhile_cons, if_pos (by decide),
    List.dropWhile_cons, if_neg (by simp [hd0])]
  rw [show d0 :: ds = msg.reverse from hr.symm, List.reverse_reverse, hm]

theorem pyStrip_no_ws_ends {a b : Char} {mid : List Char}
    (ha : pyIsSpace a = false) (hb : pyIsSpace b = false) :
    pyStrip (a :: (mid ++ [b])) = a :: (mid ++ [b]) := by
  unfold pyStrip
  rw [List.dropWhile_cons, if_neg (by simp [ha])]
  have h1 : (a :: (mid ++ [b])).reverse = b :: (mid.reverse ++ [a]) := by
    simp
  rw [h1, List.dropWhile_cons, if_neg (by simp [hb])]
  rw [← h1, List.reverse_reverse]

theorem matchBullet_simple {msg : List Char} {c0 d0 : Char} {ms ds : List Char}
    (hm : msg = c0 :: ms) (hr : msg.reverse = d0 :: ds)
    (hc0 : pyIsSpace c0 = false) (hd0 : pyIsSpace d0 = false) :
    matchBullet ("* ".toList ++ msg ++ " (1234567)".toList) =
      some (msg, "1234567".toList) := by
  have hL : "* ".toList ++ msg ++ " (1234567)".toList =
      '*' :: (' ' :: (msg ++ (' ' :: '(' :: ("1234567".toList ++ [')'])))) := by
    simp
  have hstrip : pyStrip ("* ".toList ++ msg ++ " (1234567)".toList) =
      '*' :: (' ' :: (msg ++ (' ' :: '(' :: ("1234567".toList ++ [')'])))) := by
    rw [hL]
    rw [show ' ' :: (msg ++ (' ' :: '(' :: ("1234567".toList ++ [')']))) =
      (' ' :: (msg ++ (' ' :: '(' :: "1234567".toList))) ++ [')'] from by simp]
    exact pyStrip_no_ws_ends (by decide) (by decide)
  have hrestrev : (' ' :: (msg ++ (' ' :: '(' :: ("1234567".toList ++ [')'])))).reverse =
      ')' :: ("7654321".toList ++ '(' :: (' ' :: (msg.reverse ++ [' ']))) := by
    simp [List.reverse_append]
  have htw : List.takeWhile isLowerHex
      ("7654321".toList ++ '(' :: (' ' :: (msg.reverse ++ [' ']))) =
      "7654321".toList := by
    rw [takeWhile_append_of_all (by decide)]
    simp [List.takeWhile_cons, show isLowerHex '(' = false from by decide]
  have hdwh : List.dropWhile isLowerHex
      ("7654321".toList ++ '(' :: (' ' :: (msg.reverse ++ [' ']))) =
      '(' :: (' ' :: (msg.reverse ++ [' '])) := by
    rw [dropWhile_append_of_all (by decide)]
    simp [List.dropWhile_cons, show isLowerHex '(' = false from by decide]
  have htrevrev : (' ' :: (msg.reverse ++ [' '])).reverse =
      ' ' :: (msg ++ [' ']) := by
    simp
  have hstript : pyStrip (' ' :: (msg ++ [' '])) = msg :=
    pyStrip_pad hm hr hc0 hd0
  unfold matchBullet
  split
  case h_2 hmatch => exact absurd hstrip (fun hq => hmatch _ hq)
  case h_1 x0 rest heq1 =>
    rw [hstrip] at heq1
    injection heq1 with hstar hrest
    subst hrest
    split
    case h_2 hmatch => exact absurd hrestrev (fun hq => hmatch _ hq)
    case h_1 x1 r1 heq2 =>
      rw [hrestrev] at heq2
      injection heq2 with hpar hr1
      subst hr1
      split
      case isTrue habs =>
        rw [htw] at habs
        simp at habs
      case isFalse hlen7 =>
        split
        case h_2 hmatch => exact absurd hdwh (fun hq => hmatch _ hq)
        case h_1 d2 tail2 heq5 =>
          rw [hdwh] at heq5
          injection heq5 with hpar2 htail
          subst htail
          dsimp only
          rw [if_neg (by decide)]
          rw [htrevrev]
          dsimp only
          rw [if_neg (by decide)]
          rw [hstript]
          rw [if_neg (by simp [hm])]
          rw [htw]
          rfl

theorem summarize_single {line msg sha : List Char} (repo : List Char)
    (h : matchBullet line = some (msg, sha)) (hex : isExcluded msg = false) :
    summarize repo [line] =
      ([mkEntry repo msg sha], if isFeat msg then [mkEntry repo msg sha] else []) := by
  conv_lhs => rw [summarize.eq_def]
  dsimp only
  rw [h]
  dsimp only
  rw [if_neg (by simp [hex])]
  rfl

theorem digest_single {msg : List Char} {c0 d0 : Char} {ms ds : List Char}
    (repo : List Char)
    (hm : msg = c0 :: ms) (hr : msg.reverse = d0 :: ds)
    (hc0 : pyIsSpace c0 = false) (hd0 : pyIsSpace d0 = false)
    (hsep : ∀ ch ∈ msg, isLineSep ch = false)
    (hex : isExcluded msg = false) :
    mainLines ("* ".toList ++ msg ++ " (1234567)".toList) repo =
      [mkEntry repo msg ("1234567".toList)] ∧
    featLines ("* ".toList ++ msg ++ " (1234567)".toList) repo =
      (if isFeat msg then [mkEntry repo msg ("1234567".toList)] else []) := by
  have hsep2 : ∀ ch ∈ "* ".toList ++ msg ++ " (1234567)".toList,
      isLineSep ch = false := by
    intro ch hch
    rcases List.mem_append.mp hch with h1 | h2
    · rcases List.mem_append.mp h1 with h3 | h4
      · simp at h3
        rcases h3 with rfl | rfl <;> decide
      · exact hsep ch h4
    · simp at h2
      rcases h2 with rfl | rfl | rfl | rfl | rfl | rfl | rfl | rfl | rfl | rfl <;> decide
  have hsplit := pySplitlines_single (by simp) hsep2
  unfold mainLines featLines
  rw [hsplit, summarize_single repo (matchBullet_simple hm hr hc0 hd0) hex]
  exact ⟨rfl, rfl⟩

theorem entry_length (msg : List Char) :
    (mkEntry [] msg ("1234567".toList)).length = 48 + msg.length := by
  simp [mkEntry, mkUrl]
  omega

theorem nlJoin_single (e : List Char) : nlJoin [e] = e := by
  simp [nlJoin, List.intercalate]

theorem longMsg_cons : List.replicate 3853 'x' = 'x' :: List.replicate 3852 'x' := by
  rw [show (3853 : Nat) = 3852 + 1 from rfl, List.replicate_succ]

theorem longBody_digest :
    mainLines longBody [] = [mkEntry [] (List.replicate 3853 'x') ("1234567".toList)] := by
  unfold longBody
  exact (digest_single [] longMsg_cons
    (by rw [List.reverse_replicate]; exact longMsg_cons)
    (by decide) (by decide)
    (fun ch hch => by rw [List.eq_of_mem_replicate hch]; decide)
    (by rw [longMsg_cons]; simp [isExcluded, List.isPrefixOf])).1

theorem longBody_len : (nlJoin (mainLines longBody [])).length = 3901 := by
  rw [longBody_digest, nlJoin_single, entry_length, List.length_replicate]

/-- C2 witness: a single bullet whose message has 3853 characters gives a
joined digest of exactly 3901 characters, which is truncated. -/
theorem c2_truncation_witness :
    3900 < (nlJoin (mainLines longBody [])).length ∧
    bodyOut longBody [] =
      (nlJoin (mainLines longBody [])).take 3900 ++ "\n...".toList := by
  have hlen : 3900 < (nlJoin (mainLines longBody [])).length := by
    rw [longBody_len]
    omega
  exact ⟨hlen, (c2_truncation longBody []).1 hlen⟩

theorem longFeatMsg_cons :
    "feat".toList ++ List.replicate 3850 'x' =
      'f' :: ("eat".toList ++ List.replicate 3850 'x') := rfl

theorem longFeatMsg_rev :
    ("feat".toList ++ List.replicate 3850 'x').reverse =
      'x' :: (List.replicate 3849 'x' ++ "taef".toList) := by
  rw [List.reverse_append, List.reverse_replicate]
  rw [show (3850 : Nat) = 3849 + 1 from rfl, List.replicate_succ]
  rfl

theorem longFeatBody_digest :
    featLines longFeatBody [] =
      [mkEntry [] ("feat".toList ++ List.replicate 3850 'x') ("1234567".toList)] := by
  unfold longFeatBody
  have hd := digest_single [] longFeatMsg_cons longFeatMsg_rev
    (by decide) (by decide)
    (fun ch hch => by
      rcases List.mem_append.mp hch with h1 | h2
      · simp at h1
        rcases h1 with rfl | rfl | rfl | rfl <;> decide
      · rw [List.eq_of_mem_replicate h2]; decide)
    (by simp [isExcluded, List.isPrefixOf])
  rw [hd.2, if_pos (by simp [isFeat, List.isPrefixOf])]

theorem longFeatBody_len : (nlJoin (featLines longFeatBody [])).length = 3902 := by
  rw [longFeatBody_digest, nlJoin_single, entry_length, List.length_append,
    List.length_replicate]
  rfl

/-- C5 witness: a feature digest of 3902 characters is not truncated. -/
theorem c5_featdigest_witness :
    3900 < (nlJoin (featLines longFeatBody [])).length ∧
    featBody longFeatBody [] = nlJoin (featLines longFeatBody []) := by
  have hlen : 3900 < (nlJoin (featLines longFeatBody [])).length := by
    rw [longFeatBody_len]
    omega
  exact ⟨hlen, (c5_featdigest longFeatBody []).2.2 hlen⟩
